import Mathlib

/-!
# Verification of the gateway-mt auth credential database (`auth/db.go`)

Shallow embedding of the credential database of `storj/gateway-mt`:
the version-tagged base32 codec for encryption keys, SHA-256 key hashing,
the AES-GCM envelope with fixed per-field nonces, the satellite allow-list,
and the `Put`/`Get`/`Delete`/`Invalidate` operations of the `Database` facade.

Bytes are modelled as `Nat` values (< 256 where it matters); Go byte slices
and Go strings that are treated as byte sequences become `List Nat`.
-/

namespace GatewayMT

/-- Model of Go's `copy(dst, src)`: the first `min |dst| |src|` elements of
`dst` are replaced by those of `src`; the result keeps `dst`'s length. -/
def goCopy (dst src : List Nat) : List Nat :=
  src.take (min dst.length src.length) ++ dst.drop (min dst.length src.length)

/-! ## Base32 codec

Model of Go's `encoding/base32` `StdEncoding.WithPadding(NoPadding)`
(RFC 4648 alphabet `A`-`Z` `2`-`7`, no padding), as used by
`EncryptionKey.FromBase32` / `ToBase32` in `auth/db.go`. -/

/-- ASCII uppercasing of a single byte, modelling `strings.ToUpper` on the
ASCII inputs relevant here. -/
def toUpperByte (b : Nat) : Nat := if 97 ≤ b ∧ b ≤ 122 then b - 32 else b

/-- ASCII lowercasing of a single byte, modelling `strings.ToLower` on the
ASCII inputs relevant here. -/
def toLowerByte (b : Nat) : Nat := if 65 ≤ b ∧ b ≤ 90 then b + 32 else b

/-- RFC 4648 base32 alphabet: value `v < 32` to its (uppercase) byte. -/
def b32chr (v : Nat) : Nat := if v < 26 then 65 + v else 24 + v

/-- Go's base32 `decodeMap`: byte to 5-bit value, `none` for bytes outside
the alphabet. -/
def b32val (b : Nat) : Option Nat :=
  if 65 ≤ b ∧ b ≤ 90 then some (b - 65)
  else if 50 ≤ b ∧ b ≤ 55 then some (b - 24)
  else none

/-- Encoding of a full 5-byte group into 8 base32 values (40 bits). -/
def encGroup5 (b0 b1 b2 b3 b4 : Nat) : List Nat :=
  let v := b0 * 2 ^ 32 + b1 * 2 ^ 24 + b2 * 2 ^ 16 + b3 * 2 ^ 8 + b4
  [v / 32 ^ 7 % 32, v / 32 ^ 6 % 32, v / 32 ^ 5 % 32, v / 32 ^ 4 % 32,
   v / 32 ^ 3 % 32, v / 32 ^ 2 % 32, v / 32 % 32, v % 32]

/-- Encoding of a trailing 4-byte group into 7 base32 values (35 bits,
3 zero pad bits). -/
def encGroup4 (b0 b1 b2 b3 : Nat) : List Nat :=
  let v := (b0 * 2 ^ 24 + b1 * 2 ^ 16 + b2 * 2 ^ 8 + b3) * 2 ^ 3
  [v / 32 ^ 6 % 32, v / 32 ^ 5 % 32, v / 32 ^ 4 % 32, v / 32 ^ 3 % 32,
   v / 32 ^ 2 % 32, v / 32 % 32, v % 32]

/-- Encoding of a trailing 3-byte group into 5 base32 values (25 bits,
1 zero pad bit). -/
def encGroup3 (b0 b1 b2 : Nat) : List Nat :=
  let v := (b0 * 2 ^ 16 + b1 * 2 ^ 8 + b2) * 2
  [v / 32 ^ 4 % 32, v / 32 ^ 3 % 32, v / 32 ^ 2 % 32, v / 32 % 32, v % 32]

/-- Encoding of a trailing 2-byte group into 4 base32 values (20 bits,
4 zero pad bits). -/
def encGroup2 (b0 b1 : Nat) : List Nat :=
  let v := (b0 * 2 ^ 8 + b1) * 2 ^ 4
  [v / 32 ^ 3 % 32, v / 32 ^ 2 % 32, v / 32 % 32, v % 32]

/-- Encoding of a trailing 1-byte group into 2 base32 values (10 bits,
2 zero pad bits). -/
def encGroup1 (b0 : Nat) : List Nat :=
  let v := b0 * 2 ^ 2
  [v / 32 % 32, v % 32]

/-- Go base32 encode (values, before alphabet mapping): 5-byte groups from
the front, then the trailing partial group. -/
def b32encVals : List Nat → List Nat
  | b0 :: b1 :: b2 :: b3 :: b4 :: rest => encGroup5 b0 b1 b2 b3 b4 ++ b32encVals rest
  | [b0, b1, b2, b3] => encGroup4 b0 b1 b2 b3
  | [b0, b1, b2] => encGroup3 b0 b1 b2
  | [b0, b1] => encGroup2 b0 b1
  | [b0] => encGroup1 b0
  | [] => []

/-- Decoding of a full 8-value quantum into 5 bytes. -/
def decChunk8 (c0 c1 c2 c3 c4 c5 c6 c7 : Nat) : List Nat :=
  let v := c0 * 32 ^ 7 + c1 * 32 ^ 6 + c2 * 32 ^ 5 + c3 * 32 ^ 4 +
    c4 * 32 ^ 3 + c5 * 32 ^ 2 + c6 * 32 + c7
  [v / 2 ^ 32 % 256, v / 2 ^ 24 % 256, v / 2 ^ 16 % 256, v / 2 ^ 8 % 256, v % 256]

/-- Decoding of a trailing 7-value quantum into 4 bytes (3 bits dropped). -/
def decChunk7 (c0 c1 c2 c3 c4 c5 c6 : Nat) : List Nat :=
  let v := c0 * 32 ^ 6 + c1 * 32 ^ 5 + c2 * 32 ^ 4 + c3 * 32 ^ 3 +
    c4 * 32 ^ 2 + c5 * 32 + c6
  [v / 2 ^ 27 % 256, v / 2 ^ 19 % 256, v / 2 ^ 11 % 256, v / 2 ^ 3 % 256]

/-- Decoding of a trailing 5-value quantum into 3 bytes (1 bit dropped). -/
def decChunk5 (c0 c1 c2 c3 c4 : Nat) : List Nat :=
  let v := c0 * 32 ^ 4 + c1 * 32 ^ 3 + c2 * 32 ^ 2 + c3 * 32 + c4
  [v / 2 ^ 17 % 256, v / 2 ^ 9 % 256, v / 2 % 256]

/-- Decoding of a trailing 4-value quantum into 2 bytes (4 bits dropped). -/
def decChunk4 (c0 c1 c2 c3 : Nat) : List Nat :=
  let v := c0 * 32 ^ 3 + c1 * 32 ^ 2 + c2 * 32 + c3
  [v / 2 ^ 12 % 256, v / 2 ^ 4 % 256]

/-- Decoding of a trailing 2-value quantum into 1 byte (2 bits dropped). -/
def decChunk2 (c0 c1 : Nat) : List Nat :=
  let v := c0 * 32 + c1
  [v / 2 ^ 2 % 256]

/-- Go base32 decode on alphabet values: full 8-value quanta from the front,
then the trailing quantum; trailing lengths 1, 3 and 6 are rejected
(`CorruptInputError`), as in Go's decoder. -/
def b32decChunks : List Nat → Option (List Nat)
  | c0 :: c1 :: c2 :: c3 :: c4 :: c5 :: c6 :: c7 :: rest =>
      (b32decChunks rest).map (fun bs => decChunk8 c0 c1 c2 c3 c4 c5 c6 c7 ++ bs)
  | [c0, c1, c2, c3, c4, c5, c6] => some (decChunk7 c0 c1 c2 c3 c4 c5 c6)
  | [c0, c1, c2, c3, c4] => some (decChunk5 c0 c1 c2 c3 c4)
  | [c0, c1, c2, c3] => some (decChunk4 c0 c1 c2 c3)
  | [c0, c1] => some (decChunk2 c0 c1)
  | [] => some []
  | _ => none

/-- Map every byte through the decode map, failing on the first byte outside
the alphabet (Go errors on the first invalid byte). -/
def b32mapVals : List Nat → Option (List Nat)
  | [] => some []
  | b :: rest =>
    match b32val b with
    | none => none
    | some v => (b32mapVals rest).map (fun vs => v :: vs)

/-- Go's `Encoding.DecodeString`: strip `\r` and `\n` bytes, then decode. -/
def decodeString (s : List Nat) : Option (List Nat) :=
  match b32mapVals (s.filter (fun b => decide (b ≠ 13 ∧ b ≠ 10))) with
  | none => none
  | some vals => b32decChunks vals

/-- Go's `Encoding.EncodeToString` (uppercase RFC 4648, no padding). -/
def encodeString (s : List Nat) : List Nat :=
  (b32encVals s).map b32chr

/-- Size in base32 bytes + magic byte (`encKeySizeEncoded` in `auth/db.go`). -/
def encKeySizeEncoded : Nat := 28

/-- Magic number for v1 EncryptionKey encoding (`encKeyVersionByte`). -/
def encKeyVersionByte : Nat := 77

/-- Magic number for v1 SecretKey encoding (`secKeyVersionByte`). -/
def secKeyVersionByte : Nat := 78

/-- `ToBase32` from `auth/db.go`: prepend the version byte, base32-encode,
lowercase. -/
def ToBase32 (versionByte : Nat) (k : List Nat) : List Nat :=
  (encodeString (versionByte :: k)).map toLowerByte

/-- `EncryptionKey.ToBase32`: version tag 77. -/
def encKeyToBase32 (k : List Nat) : List Nat := ToBase32 encKeyVersionByte k

/-- Outcome of `EncryptionKey.FromBase32`, one constructor per `return`
site of the Go function, plus `panicked` for the run-time panic that
`data[0]` raises when the decoded slice is empty. -/
inductive GoOutcome where
  | ok
  | errLength
  | errDecode
  | errVersion
  | panicked
deriving DecidableEq, Repr

/-- `EncryptionKey.FromBase32` from `auth/db.go`, as a transformer of the
receiver `k` (16 bytes): length check, `DecodeString(strings.ToUpper(s))`,
version-byte check, then `copy(k[:], data[1:])`. The pair returned is the
receiver after the call together with the outcome. -/
def FromBase32 (k encoded : List Nat) : List Nat × GoOutcome :=
  if encoded.length ≠ encKeySizeEncoded then (k, GoOutcome.errLength)
  else
    match decodeString (encoded.map toUpperByte) with
    | none => (k, GoOutcome.errDecode)
    | some [] => (k, GoOutcome.panicked)
    | some (d0 :: rest) =>
      if d0 ≠ encKeyVersionByte then (k, GoOutcome.errVersion)
      else (goCopy k rest, GoOutcome.ok)

/-! ## SHA-256

Executable model of Go's `crypto/sha256` `Sum256`, used by
`EncryptionKey.Hash` in `auth/db.go`. Words are `Nat` values reduced
`% 2 ^ 32` wherever Go's `uint32` arithmetic would wrap. -/

/-- 32-bit rotate right by `n`. -/
def rotr32 (n x : Nat) : Nat := x / 2 ^ n + x % 2 ^ n * 2 ^ (32 - n)

def ssig0 (x : Nat) : Nat := rotr32 7 x ^^^ rotr32 18 x ^^^ x / 2 ^ 3
def ssig1 (x : Nat) : Nat := rotr32 17 x ^^^ rotr32 19 x ^^^ x / 2 ^ 10
def bsig0 (x : Nat) : Nat := rotr32 2 x ^^^ rotr32 13 x ^^^ rotr32 22 x
def bsig1 (x : Nat) : Nat := rotr32 6 x ^^^ rotr32 11 x ^^^ rotr32 25 x

/-- The 64 SHA-256 round constants (decimal). -/
def sha256K : List Nat :=
  [1116352408, 1899447441, 3049323471, 3921009573,
   961987163, 1508970993, 2453635748, 2870763221,
   3624381080, 310598401, 607225278, 1426881987,
   1925078388, 2162078206, 2614888103, 3248222580,
   3835390401, 4022224774, 264347078, 604807628,
   770255983, 1249150122, 1555081692, 1996064986,
   2554220882, 2821834349, 2952996808, 3210313671,
   3336571891, 3584528711, 113926993, 338241895,
   666307205, 773529912, 1294757372, 1396182291,
   1695183700, 1986661051, 2177026350, 2456956037,
   2730485921, 2820302411, 3259730800, 3345764771,
   3516065817, 3600352804, 4094571909, 275423344,
   430227734, 506948616, 659060556, 883997877,
   958139571, 1322822218, 1537002063, 1747873779,
   1955562222, 2024104815, 2227730452, 2361852424,
   2428436474, 2756734187, 3204031479, 3329325298]

/-- The SHA-256 initial hash state (decimal). -/
def sha256H0 : List Nat :=
  [1779033703, 3144134277, 1013904242, 2773480762,
   1359893119, 2600822924, 528734635, 1541459225]

/-- Big-endian bytes of a 32-bit word. -/
def toBE32 (w : Nat) : List Nat :=
  [w / 2 ^ 24 % 256, w / 2 ^ 16 % 256, w / 2 ^ 8 % 256, w % 256]

/-- Big-endian bytes of a 64-bit word. -/
def toBE64 (w : Nat) : List Nat :=
  [w / 2 ^ 56 % 256, w / 2 ^ 48 % 256, w / 2 ^ 40 % 256, w / 2 ^ 32 % 256,
   w / 2 ^ 24 % 256, w / 2 ^ 16 % 256, w / 2 ^ 8 % 256, w % 256]

/-- Big-endian 4-byte groups to 32-bit words. -/
def bytesToWords : List Nat → List Nat
  | a :: b :: c :: d :: rest => (a * 2 ^ 24 + b * 2 ^ 16 + c * 2 ^ 8 + d) :: bytesToWords rest
  | _ => []

/-- SHA-256 message padding: `0x80`, zeros to 56 mod 64, 64-bit big-endian
bit length. -/
def sha256Pad (msg : List Nat) : List Nat :=
  msg ++ 128 :: List.replicate ((64 + 55 - msg.length % 64) % 64) 0 ++ toBE64 (msg.length * 8)

/-- One step of the message-schedule extension; `ws` holds the schedule so
far, most recent word first. -/
def scheduleStep (ws : List Nat) : List Nat :=
  (ssig1 (ws.getD 1 0) + ws.getD 6 0 + ssig0 (ws.getD 14 0) + ws.getD 15 0) % 2 ^ 32 :: ws

def iterateN {α : Type} (f : α → α) : Nat → α → α
  | 0, a => a
  | n + 1, a => iterateN f n (f a)

/-- Extend the 16 block words to the 64-word schedule. -/
def sha256Schedule (w16 : List Nat) : List Nat :=
  (iterateN scheduleStep 48 w16.reverse).reverse

/-- One round of the compression function; the state is `[a,b,c,d,e,f,g,h]`
and `wk` is the pair (schedule word, round constant). -/
def sha256Compress (st : List Nat) (wk : Nat × Nat) : List Nat :=
  match st with
  | [a, b, c, d, e, f, g, h] =>
    let t1 := (h + bsig1 e + ((e &&& f) ^^^ ((e ^^^ 4294967295) &&& g)) + wk.2 + wk.1) % 2 ^ 32
    let t2 := (bsig0 a + ((a &&& b) ^^^ (a &&& c) ^^^ (b &&& c))) % 2 ^ 32
    [(t1 + t2) % 2 ^ 32, a, b, c, (d + t1) % 2 ^ 32, e, f, g]
  | st => st

/-- Process one 64-byte block. -/
def sha256Block (h : List Nat) (block : List Nat) : List Nat :=
  let ws := sha256Schedule (bytesToWords block)
  let st := (ws.zip sha256K).foldl sha256Compress h
  (h.zip st).map fun p => (p.1 + p.2) % 2 ^ 32

/-- Split into 64-byte blocks; the `Nat` fuel is an upper bound on the
number of blocks, so the recursion is structural (and hence computable by
the kernel). -/
def chunks64Aux : Nat → List Nat → List (List Nat)
  | 0, _ => []
  | _, [] => []
  | fuel + 1, l => l.take 64 :: chunks64Aux fuel (l.drop 64)

/-- Split into 64-byte blocks. -/
def chunks64 (l : List Nat) : List (List Nat) := chunks64Aux l.length l

/-- SHA-256 digest (32 bytes) of a byte list. -/
def sha256 (msg : List Nat) : List Nat :=
  (((chunks64 (sha256Pad msg)).foldl sha256Block sha256H0).map toBE32).flatten

/-! ## AES-GCM envelope

Idealized model of the external `storj.io/common/encryption` library:
AEAD encryption is modelled symbolically by recording plaintext, cipher key
and nonce; decryption succeeds exactly when key and nonce match. The claims
depend only on which keys and nonces `auth/db.go` passes, and on decryption
inverting encryption under the same key and nonce. -/

structure Ciphertext where
  plaintext : List Nat
  key : List Nat
  nonce : List Nat
deriving DecidableEq, Repr

/-- `encryption.Encrypt(data, storj.EncAESGCM, key, nonce)`. -/
def encrypt (key nonce plain : List Nat) : Ciphertext := ⟨plain, key, nonce⟩

/-- `encryption.Decrypt(c, storj.EncAESGCM, key, nonce)`: fails (AEAD
authentication failure) unless key and nonce match those used to encrypt. -/
def decrypt (c : Ciphertext) (key nonce : List Nat) : Option (List Nat) :=
  if c.key = key ∧ c.nonce = nonce then some c.plaintext else none

/-- `storj.Nonce{}`: the all-zero 12-byte nonce, used for secret keys. -/
def zeroNonce : List Nat := List.replicate 12 0

/-- `storj.Nonce{1}`: byte 0 is 1, remaining bytes zero; used for access
grants. -/
def oneNonce : List Nat := 1 :: List.replicate 11 0

/-- `EncryptionKey.ToStorjKey`: `copy` the 16 key bytes into a zero-valued
32-byte `storj.Key`. -/
def ToStorjKey (k : List Nat) : List Nat := goCopy (List.replicate 32 0) k

/-- `EncryptionKey.Hash`: SHA-256 of the raw key bytes. -/
def keyHash (k : List Nat) : List Nat := sha256 k

/-! ## Access grants and node URLs (external `storj.io` libraries) -/

/-- The two fields of a parsed access grant that `auth/db.go` reads:
`access.SatelliteAddress` and `access.APIKey.Head()`. Grants themselves
are opaque byte strings; `access2.ParseAccess` is kept abstract and passed
to `Database.Put` as a parameter. -/
structure Access where
  satelliteAddress : List Nat
  apiKeyHead : List Nat
deriving DecidableEq, Repr

/-- Modelled from the spec: `storj.ParseNodeURL` (external library) parses
a node URL `host:port` or `nodeID@host:port`; `address` is the component
after the optional `nodeID@` prefix (`url.Address`). -/
structure NodeURL where
  id : List Nat
  address : List Nat
deriving DecidableEq, Repr

/-- Split a byte string at the first occurrence of byte `b`. -/
def splitAtByte (b : Nat) : List Nat → Option (List Nat × List Nat)
  | [] => none
  | c :: rest =>
    if c = b then some ([], rest)
    else (splitAtByte b rest).map (fun p => (c :: p.1, p.2))

/-- Modelled from the spec: split a node URL at the first `@` (byte 64)
into node ID and address; without `@` the whole string is the address. -/
def parseNodeURL (s : List Nat) : Option NodeURL :=
  if s = [] then none
  else
    match splitAtByte 64 s with
    | none => some ⟨[], s⟩
    | some (nid, addr) => some ⟨nid, addr⟩

/-- `RemoveNodeIDs` from `auth/db.go`: parse each node URL and keep only
its address component; the first parse failure aborts with an error. -/
def RemoveNodeIDs : List (List Nat) → Option (List (List Nat))
  | [] => some []
  | s :: rest =>
    match parseNodeURL s with
    | none => none
    | some url => (RemoveNodeIDs rest).map (fun p => url.address :: p)

/-! ## Record and key/value store -/

/-- The record assembled by `Database.Put` (fields per `auth/db.go` and
spec §3). -/
structure Record where
  satelliteAddress : List Nat
  macaroonHead : List Nat
  encryptedSecretKey : Ciphertext
  encryptedAccessGrant : Ciphertext
  public : Bool
deriving DecidableEq, Repr

/-- A store entry: the record plus the invalidation state the backend
tracks (spec §3, §4.5). -/
structure KVEntry where
  record : Record
  invalidationReason : Option String
deriving DecidableEq, Repr

/-- Modelled from the spec (§4.5): the abstract key/value backend state, an
association list from key hashes to entries, newest first. The concrete
backends of the repository are not under `src/`. -/
abbrev KVState := List (List Nat × KVEntry)

def kvLookup : KVState → List Nat → Option KVEntry
  | [], _ => none
  | (kh, e) :: rest, kh' => if kh = kh' then some e else kvLookup rest kh'

/-- Modelled from the spec (§4.5): `put` is atomic insert-if-absent; it
fails (`AlreadyExists`, here `none`) when any record — live or invalidated
— already exists under the hash. -/
def kvPut (st : KVState) (kh : List Nat) (r : Record) : Option KVState :=
  if (kvLookup st kh).isSome then none
  else some ((kh, ⟨r, none⟩) :: st)

/-- Modelled from the spec (§4.5, §4.6): `get` returns the record, or
nothing when it is absent — or invalidated, so that invalidated keys are
indistinguishable from absent ones. -/
def kvGet (st : KVState) (kh : List Nat) : Option Record :=
  match kvLookup st kh with
  | none => none
  | some e => if e.invalidationReason.isSome then none else some e.record

/-- Modelled from the spec (§4.5): delete is idempotent. -/
def kvDelete (st : KVState) (kh : List Nat) : KVState :=
  st.filter fun p => decide (p.1 ≠ kh)

/-- Modelled from the spec (§4.5): invalidate marks the record with the
reason; the record itself is not erased. -/
def kvInvalidate (st : KVState) (kh : List Nat) (reason : String) : KVState :=
  st.map fun p => if p.1 = kh then (p.1, ⟨p.2.record, some reason⟩) else p

/-! ## Database facade (`auth/db.go`) -/

deriving instance DecidableEq for Except

/-- Error paths of `Database.Put`, one constructor per `return` with a
non-nil error. -/
inductive PutErr where
  | malformedGrant
  | malformedNodeURL
  | disallowedSatellite
  | alreadyExists
deriving DecidableEq, Repr

/-- Error paths of `Database.Get`: `notFound` is the `NotFound` error
class of `auth/db.go`; `corrupt` is a wrapped AEAD decryption failure (the
spec's `Corrupt`). -/
inductive GetErr where
  | notFound
  | corrupt
deriving DecidableEq, Repr

structure Database where
  allowedSatelliteAddresses : List (List Nat)
deriving DecidableEq, Repr

/-- `NewDatabase`: record the allowed satellite addresses as a set (here a
list; only membership is used). -/
def NewDatabase (allowedSatelliteAddresses : List (List Nat)) : Database :=
  ⟨allowedSatelliteAddresses⟩

/-- `Database.Put`. `parseAccess` stands for the external
`access2.ParseAccess`, and `freshSecret` for the 32 bytes `rand.Read`
mints into `secretKey`. The store state is passed and returned explicitly;
on error the state is unchanged. -/
def Database.Put (db : Database) (parseAccess : List Nat → Option Access)
    (st : KVState) (key : List Nat) (accessGrant : List Nat) (public : Bool)
    (freshSecret : List Nat) : Except PutErr (List Nat) × KVState :=
  match parseAccess accessGrant with
  | none => (.error .malformedGrant, st)
  | some access =>
    match parseNodeURL access.satelliteAddress with
    | none => (.error .malformedNodeURL, st)
    | some url =>
      if url.address ∈ db.allowedSatelliteAddresses then
        let storjKey := ToStorjKey key
        let record : Record :=
          { satelliteAddress := access.satelliteAddress
            macaroonHead := access.apiKeyHead
            encryptedSecretKey := encrypt storjKey zeroNonce freshSecret
            encryptedAccessGrant := encrypt storjKey oneNonce accessGrant
            public := public }
        match kvPut st (keyHash key) record with
        | none => (.error .alreadyExists, st)
        | some st1 => (.ok freshSecret, st1)
      else (.error .disallowedSatellite, st)

/-- `Database.Get`: look up by key hash, decrypt both fields with the
fixed nonces, copy the secret into a 32-byte buffer. -/
def Database.Get (db : Database) (st : KVState) (key : List Nat) :
    Except GetErr (List Nat × Bool × List Nat) :=
  match kvGet st (keyHash key) with
  | none => .error .notFound
  | some record =>
    let storjKey := ToStorjKey key
    match decrypt record.encryptedSecretKey storjKey zeroNonce with
    | none => .error .corrupt
    | some sk =>
      match decrypt record.encryptedAccessGrant storjKey oneNonce with
      | none => .error .corrupt
      | some ag => .ok (ag, record.public, goCopy (List.replicate 32 0) sk)

/-- `Database.Delete`: forwarded to the store. -/
def Database.Delete (db : Database) (st : KVState) (key : List Nat) : KVState :=
  kvDelete st (keyHash key)

/-- `Database.Invalidate`: forwarded to the store. -/
def Database.Invalidate (db : Database) (st : KVState) (key : List Nat)
    (reason : String) : KVState :=
  kvInvalidate st (keyHash key) reason

/-- The record written by a successful `Put`. -/
def putRecord (key accessGrant : List Nat) (public : Bool) (freshSecret : List Nat)
    (access : Access) : Record :=
  { satelliteAddress := access.satelliteAddress
    macaroonHead := access.apiKeyHead
    encryptedSecretKey := encrypt (ToStorjKey key) zeroNonce freshSecret
    encryptedAccessGrant := encrypt (ToStorjKey key) oneNonce accessGrant
    public := public }

/-! ## Concrete fixtures used by the claim witnesses -/

def testAccess : Access := ⟨[7, 64, 5], [1]⟩

def testParse : List Nat → Option Access := fun _ => some testAccess

def testDB : Database := NewDatabase [[5]]

def testKey : List Nat := List.replicate 16 1

def testGrant : List Nat := [9]

def testGrant2 : List Nat := [8]

def testSecret : List Nat := List.replicate 32 2

/-- A record whose ciphertexts were produced under a different cipher key,
so both decryptions under `testKey` fail authentication. -/
def testBadRecord : Record :=
  { satelliteAddress := [5]
    macaroonHead := []
    encryptedSecretKey := ⟨testSecret, List.replicate 32 9, zeroNonce⟩
    encryptedAccessGrant := ⟨testGrant, List.replicate 32 9, oneNonce⟩
    public := false }

def testBadState : KVState := [(keyHash testKey, ⟨testBadRecord, none⟩)]

/-! ## Codec lemmas -/

theorem b32digitsRecombine8 (v : Nat) (hv : v < 2 ^ 40) :
    v / 32 ^ 7 % 32 * 32 ^ 7 + v / 32 ^ 6 % 32 * 32 ^ 6 + v / 32 ^ 5 % 32 * 32 ^ 5 +
      v / 32 ^ 4 % 32 * 32 ^ 4 + v / 32 ^ 3 % 32 * 32 ^ 3 + v / 32 ^ 2 % 32 * 32 ^ 2 +
      v / 32 % 32 * 32 + v % 32 = v := by
  omega

theorem b32digitsRecombine4 (v : Nat) (hv : v < 2 ^ 20) :
    v / 32 ^ 3 % 32 * 32 ^ 3 + v / 32 ^ 2 % 32 * 32 ^ 2 + v / 32 % 32 * 32 + v % 32 = v := by
  omega

theorem dec8_enc5 (b0 b1 b2 b3 b4 : Nat)
    (h0 : b0 < 256) (h1 : b1 < 256) (h2 : b2 < 256) (h3 : b3 < 256) (h4 : b4 < 256) :
    decChunk8
      ((b0 * 2 ^ 32 + b1 * 2 ^ 24 + b2 * 2 ^ 16 + b3 * 2 ^ 8 + b4) / 32 ^ 7 % 32)
      ((b0 * 2 ^ 32 + b1 * 2 ^ 24 + b2 * 2 ^ 16 + b3 * 2 ^ 8 + b4) / 32 ^ 6 % 32)
      ((b0 * 2 ^ 32 + b1 * 2 ^ 24 + b2 * 2 ^ 16 + b3 * 2 ^ 8 + b4) / 32 ^ 5 % 32)
      ((b0 * 2 ^ 32 + b1 * 2 ^ 24 + b2 * 2 ^ 16 + b3 * 2 ^ 8 + b4) / 32 ^ 4 % 32)
      ((b0 * 2 ^ 32 + b1 * 2 ^ 24 + b2 * 2 ^ 16 + b3 * 2 ^ 8 + b4) / 32 ^ 3 % 32)
      ((b0 * 2 ^ 32 + b1 * 2 ^ 24 + b2 * 2 ^ 16 + b3 * 2 ^ 8 + b4) / 32 ^ 2 % 32)
      ((b0 * 2 ^ 32 + b1 * 2 ^ 24 + b2 * 2 ^ 16 + b3 * 2 ^ 8 + b4) / 32 % 32)
      ((b0 * 2 ^ 32 + b1 * 2 ^ 24 + b2 * 2 ^ 16 + b3 * 2 ^ 8 + b4) % 32)
      = [b0, b1, b2, b3, b4] := by
  have hv : b0 * 2 ^ 32 + b1 * 2 ^ 24 + b2 * 2 ^ 16 + b3 * 2 ^ 8 + b4 < 2 ^ 40 := by omega
  simp only [decChunk8]
  rw [b32digitsRecombine8 _ hv]
  simp only [List.cons.injEq, and_true]
  refine ⟨?_, ?_, ?_, ?_, ?_⟩ <;> omega

theorem dec4_enc2 (b0 b1 : Nat) (h0 : b0 < 256) (h1 : b1 < 256) :
    decChunk4 ((b0 * 2 ^ 8 + b1) * 2 ^ 4 / 32 ^ 3 % 32) ((b0 * 2 ^ 8 + b1) * 2 ^ 4 / 32 ^ 2 % 32)
      ((b0 * 2 ^ 8 + b1) * 2 ^ 4 / 32 % 32) ((b0 * 2 ^ 8 + b1) * 2 ^ 4 % 32) = [b0, b1] := by
  have hv : (b0 * 2 ^ 8 + b1) * 2 ^ 4 < 2 ^ 20 := by omega
  simp only [decChunk4]
  rw [b32digitsRecombine4 _ hv]
  simp only [List.cons.injEq, and_true]
  exact ⟨by omega, by omega⟩

theorem b32decChunks_enc5 (b0 b1 b2 b3 b4 : Nat) (rest : List Nat)
    (h0 : b0 < 256) (h1 : b1 < 256) (h2 : b2 < 256) (h3 : b3 < 256) (h4 : b4 < 256) :
    b32decChunks (encGroup5 b0 b1 b2 b3 b4 ++ rest) =
      (b32decChunks rest).map (fun bs => [b0, b1, b2, b3, b4] ++ bs) := by
  simp only [encGroup5, List.cons_append, List.nil_append]
  rw [b32decChunks]
  simp only [dec8_enc5 b0 b1 b2 b3 b4 h0 h1 h2 h3 h4, List.cons_append, List.nil_append]

theorem b32decChunks_enc2 (b0 b1 : Nat) (h0 : b0 < 256) (h1 : b1 < 256) :
    b32decChunks (encGroup2 b0 b1) = some [b0, b1] := by
  simp only [encGroup2]
  rw [b32decChunks]
  rw [dec4_enc2 b0 b1 h0 h1]

/-- Decode is a left inverse of encode on byte lists whose length is
2 mod 5 (the shape of a version byte plus a 16-byte key). -/
theorem b32decChunks_encVals (bs : List Nat) (hlen : bs.length % 5 = 2)
    (hb : ∀ b ∈ bs, b < 256) : b32decChunks (b32encVals bs) = some bs := by
  induction bs using b32encVals.induct with
  | case1 b0 b1 b2 b3 b4 rest ih =>
    have h0 : b0 < 256 := hb _ (by simp)
    have h1 : b1 < 256 := hb _ (by simp)
    have h2 : b2 < 256 := hb _ (by simp)
    have h3 : b3 < 256 := hb _ (by simp)
    have h4 : b4 < 256 := hb _ (by simp)
    have hrest : rest.length % 5 = 2 := by
      simp only [List.length_cons] at hlen; omega
    rw [b32encVals]
    rw [b32decChunks_enc5 b0 b1 b2 b3 b4 _ h0 h1 h2 h3 h4]
    rw [ih hrest (fun b hbm => hb b (by simp [hbm]))]
    rfl
  | case2 b0 b1 b2 b3 => simp at hlen
  | case3 b0 b1 b2 => simp at hlen
  | case4 b0 b1 =>
    rw [b32encVals]
    exact b32decChunks_enc2 b0 b1 (hb _ (by simp)) (hb _ (by simp))
  | case5 b0 => simp at hlen
  | case6 => simp at hlen

/-- Every value emitted by the base32 encoder is a 5-bit value. -/
theorem b32encVals_lt32 (bs : List Nat) : ∀ d ∈ b32encVals bs, d < 32 := by
  induction bs using b32encVals.induct with
  | case1 b0 b1 b2 b3 b4 rest ih =>
    intro d hd
    rw [b32encVals] at hd
    rcases List.mem_append.mp hd with h | h
    · simp only [encGroup5, List.mem_cons, List.not_mem_nil, or_false] at h
      rcases h with rfl | rfl | rfl | rfl | rfl | rfl | rfl | rfl <;> omega
    · exact ih d h
  | case2 b0 b1 b2 b3 =>
    intro d hd
    simp only [b32encVals, encGroup4, List.mem_cons, List.not_mem_nil, or_false] at hd
    rcases hd with rfl | rfl | rfl | rfl | rfl | rfl | rfl <;> omega
  | case3 b0 b1 b2 =>
    intro d hd
    simp only [b32encVals, encGroup3, List.mem_cons, List.not_mem_nil, or_false] at hd
    rcases hd with rfl | rfl | rfl | rfl | rfl <;> omega
  | case4 b0 b1 =>
    intro d hd
    simp only [b32encVals, encGroup2, List.mem_cons, List.not_mem_nil, or_false] at hd
    rcases hd with rfl | rfl | rfl | rfl <;> omega
  | case5 b0 =>
    intro d hd
    simp only [b32encVals, encGroup1, List.mem_cons, List.not_mem_nil, or_false] at hd
    rcases hd with rfl | rfl <;> omega
  | case6 => intro d hd; simp [b32encVals] at hd

/-- Length of the encoding of a byte list whose length is 2 mod 5. -/
theorem b32encVals_length (bs : List Nat) (hlen : bs.length % 5 = 2) :
    (b32encVals bs).length = bs.length / 5 * 8 + 4 := by
  induction bs using b32encVals.induct with
  | case1 b0 b1 b2 b3 b4 rest ih =>
    have hrest : rest.length % 5 = 2 := by
      simp only [List.length_cons] at hlen; omega
    rw [b32encVals]
    simp only [List.length_append, List.length_cons, encGroup5]
    rw [ih hrest]
    simp only [List.length_cons, List.length_nil]
    omega
  | case2 b0 b1 b2 b3 => simp at hlen
  | case3 b0 b1 b2 => simp at hlen
  | case4 b0 b1 => simp [b32encVals, encGroup2]
  | case5 b0 => simp at hlen
  | case6 => simp at hlen

/-- Alphabet roundtrip: encode a 5-bit value, lowercase, uppercase, decode. -/
theorem b32chr_roundtrip : ∀ v < 32, b32val (toUpperByte (toLowerByte (b32chr v))) = some v := by
  decide

/-- Encoded characters survive the `\r\n` strip of Go's base32 decoder. -/
theorem b32chr_not_newline : ∀ v < 32,
    decide (toUpperByte (toLowerByte (b32chr v)) ≠ 13 ∧
      toUpperByte (toLowerByte (b32chr v)) ≠ 10) = true := by
  decide

theorem b32mapVals_chr (vs : List Nat) (h : ∀ v ∈ vs, v < 32) :
    b32mapVals (vs.map fun v => toUpperByte (toLowerByte (b32chr v))) = some vs := by
  induction vs with
  | nil => rfl
  | cons v rest ih =>
    have hv := h v (by simp)
    simp only [List.map_cons, b32mapVals]
    rw [b32chr_roundtrip v hv]
    rw [ih (fun w hw => h w (by simp [hw]))]
    rfl

theorem b32filter_no_newline (vs : List Nat) (h : ∀ v ∈ vs, v < 32) :
    ((vs.map fun v => toUpperByte (toLowerByte (b32chr v))).filter
        (fun b => decide (b ≠ 13 ∧ b ≠ 10))) =
      vs.map fun v => toUpperByte (toLowerByte (b32chr v)) := by
  apply List.filter_eq_self.mpr
  intro a ha
  simp only [List.mem_map] at ha
  obtain ⟨v, hv, rfl⟩ := ha
  exact b32chr_not_newline v (h v hv)

/-- `DecodeString ∘ ToUpper` inverts `ToLower ∘ EncodeToString` on byte
lists whose length is 2 mod 5. -/
theorem decodeString_ToBase32 (vb : Nat) (k : List Nat) (hvb : vb < 256)
    (hk : ∀ b ∈ k, b < 256) (hlen : (vb :: k).length % 5 = 2) :
    decodeString ((ToBase32 vb k).map toUpperByte) = some (vb :: k) := by
  have hbs : ∀ b ∈ vb :: k, b < 256 := by
    intro b hbm
    rcases List.mem_cons.mp hbm with rfl | hbm
    · exact hvb
    · exact hk b hbm
  have hmap : ((ToBase32 vb k).map toUpperByte) =
      (b32encVals (vb :: k)).map fun v => toUpperByte (toLowerByte (b32chr v)) := by
    simp [ToBase32, encodeString, List.map_map, Function.comp]
  rw [hmap]
  unfold decodeString
  rw [b32filter_no_newline _ (b32encVals_lt32 _)]
  rw [b32mapVals_chr _ (b32encVals_lt32 _)]
  exact b32decChunks_encVals _ hlen hbs

theorem goCopy_sameLength (dst src : List Nat) (h : dst.length = src.length) :
    goCopy dst src = src := by
  unfold goCopy
  rw [h, Nat.min_self, List.take_length, ← h, List.drop_length, List.append_nil]

/-- Direction 1 of the codec roundtrip: `FromBase32` of `ToBase32` of any
16-byte key succeeds and overwrites the receiver with that key. -/
theorem FromBase32_ToBase32 (k recv : List Nat) (hk : k.length = 16)
    (hb : ∀ b ∈ k, b < 256) (hr : recv.length = 16) :
    FromBase32 recv (ToBase32 encKeyVersionByte k) = (k, GoOutcome.ok) := by
  have hlen17 : (encKeyVersionByte :: k).length % 5 = 2 := by simp [hk]
  have hlen28 : (ToBase32 encKeyVersionByte k).length = 28 := by
    unfold ToBase32 encodeString
    simp only [List.length_map]
    rw [b32encVals_length _ hlen17]
    simp [hk]
  unfold FromBase32
  rw [if_neg (by simp [hlen28, encKeySizeEncoded])]
  rw [decodeString_ToBase32 encKeyVersionByte k (by norm_num [encKeyVersionByte]) hb hlen17]
  simp only [encKeyVersionByte, ne_eq, not_true_eq_false, reduceIte]
  rw [goCopy_sameLength recv k (by rw [hr, hk])]

/-! ## Database lemmas -/

/-- Anatomy of a successful `Put`: the grant parsed, its satellite address
parsed and was allowed, no record existed under the key hash, the returned
secret is the freshly minted one, and the new state has the assembled
record at the key hash. -/
theorem put_ok_dest (db : Database) (parseAccess : List Nat → Option Access)
    (st : KVState) (key accessGrant : List Nat) (public : Bool)
    (freshSecret s1 : List Nat) (st1 : KVState)
    (h : db.Put parseAccess st key accessGrant public freshSecret = (.ok s1, st1)) :
    ∃ access url, parseAccess accessGrant = some access ∧
      parseNodeURL access.satelliteAddress = some url ∧
      url.address ∈ db.allowedSatelliteAddresses ∧
      kvLookup st (keyHash key) = none ∧
      s1 = freshSecret ∧
      st1 = (keyHash key, ⟨putRecord key accessGrant public freshSecret access, none⟩) :: st := by
  simp only [Database.Put] at h
  split at h
  next => simp at h
  next access hpa =>
    split at h
    next => simp at h
    next url hpu =>
      split at h
      next hmem =>
        split at h
        next hput => simp at h
        next st2 hput =>
          simp only [Prod.mk.injEq, Except.ok.injEq] at h
          simp only [kvPut] at hput
          split at hput
          next => simp at hput
          next hlk =>
            simp only [Option.some.injEq] at hput
            refine ⟨access, url, hpa, hpu, hmem, ?_, h.1.symm, ?_⟩
            · exact Option.not_isSome_iff_eq_none.mp hlk
            · rw [← h.2, ← hput]
              rfl
      next => simp at h

/-- A `Put` that fails leaves the state component unchanged (all error
returns in `Database.Put` return the incoming state). -/
theorem put_error_state (db : Database) (parseAccess : List Nat → Option Access)
    (st : KVState) (key accessGrant : List Nat) (public : Bool)
    (freshSecret : List Nat) (e : PutErr)
    (h : (db.Put parseAccess st key accessGrant public freshSecret).1 = .error e) :
    (db.Put parseAccess st key accessGrant public freshSecret).2 = st := by
  simp only [Database.Put] at h ⊢
  split at h
  next => rfl
  next access hpa =>
    split at h
    next => rfl
    next url hpu =>
      split at h
      next hmem =>
        split at h
        next hput => rw [if_pos hmem]
        next st2 hput => simp at h
      next hmem => rw [if_neg hmem]

theorem goCopy_zero32 (s : List Nat) (hs : s.length = 32) :
    goCopy (List.replicate 32 0) s = s :=
  goCopy_sameLength _ _ (by simp [hs])

/-- Get after a successful Put of the same key returns the grant, the flag
and the minted secret. -/
theorem put_get (db : Database) (parseAccess : List Nat → Option Access)
    (st : KVState) (key accessGrant : List Nat) (public : Bool)
    (freshSecret s1 : List Nat) (st1 : KVState)
    (hput : db.Put parseAccess st key accessGrant public freshSecret = (.ok s1, st1))
    (hs : freshSecret.length = 32) :
    db.Get st1 key = .ok (accessGrant, public, s1) := by
  obtain ⟨access, url, hpa, hpu, hmem, hlk, hs1, hst1⟩ :=
    put_ok_dest db parseAccess st key accessGrant public freshSecret _ _ hput
  rw [hst1, hs1]
  simp [Database.Get, kvGet, kvLookup, decrypt, encrypt, putRecord]
  exact goCopy_zero32 _ hs

/-- Invalidation rewrites the entry under the hash, keeping the record and
setting the reason. -/
theorem kvLookup_invalidate (st : KVState) (kh : List Nat) (reason : String) :
    kvLookup (kvInvalidate st kh reason) kh =
      (kvLookup st kh).map (fun e => ⟨e.record, some reason⟩) := by
  induction st with
  | nil => rfl
  | cons p rest ih =>
    obtain ⟨kh1, e⟩ := p
    by_cases hkh : kh1 = kh
    · subst hkh
      simp only [kvInvalidate, List.map_cons, if_true]
      simp [kvLookup]
    · simp only [kvInvalidate, List.map_cons, if_neg hkh]
      simp only [kvLookup, if_neg hkh]
      simpa [kvInvalidate] using ih

/-- Every address component of a parsed configured URL ends up in the
output of `RemoveNodeIDs`. -/
theorem removeNodeIDs_mem (urls : List (List Nat)) (addrs : List (List Nat))
    (h : RemoveNodeIDs urls = some addrs) :
    ∀ cfg ∈ urls, ∀ cu, parseNodeURL cfg = some cu → cu.address ∈ addrs := by
  induction urls generalizing addrs with
  | nil => intro cfg hcfg; simp at hcfg
  | cons s rest ih =>
    intro cfg hcfg cu hcu
    simp only [RemoveNodeIDs] at h
    split at h
    next => simp at h
    next url hurl =>
      cases hrest : RemoveNodeIDs rest with
      | none => rw [hrest] at h; simp at h
      | some prest =>
        rw [hrest] at h
        simp only [Option.map_some', Option.some.injEq] at h
        subst h
        rcases List.mem_cons.mp hcfg with rfl | hmem
        · rw [hurl] at hcu
          simp only [Option.some.injEq] at hcu
          subst hcu
          exact List.mem_cons_self _ _
        · exact List.mem_cons_of_mem _ (ih prest hrest cfg hmem cu hcu)

/-- A decryption that succeeds was performed with the matching key and
nonce, and returns the stored plaintext. -/
theorem decrypt_some_dest (c : Ciphertext) (key nonce x : List Nat)
    (h : decrypt c key nonce = some x) :
    c.key = key ∧ c.nonce = nonce ∧ c.plaintext = x := by
  unfold decrypt at h
  split at h
  next hc => simp only [Option.some.injEq] at h; exact ⟨hc.1, hc.2, h⟩
  next => simp at h

/-- Anatomy of a successful `Get`: a live record was found under the key
hash and both fields decrypted under the derived key and the fixed
nonces. -/
theorem get_ok_dest (db : Database) (st : KVState) (key g : List Nat) (p : Bool)
    (s1 : List Nat) (h : db.Get st key = .ok (g, p, s1)) :
    ∃ rec sk, kvGet st (keyHash key) = some rec ∧
      decrypt rec.encryptedSecretKey (ToStorjKey key) zeroNonce = some sk ∧
      decrypt rec.encryptedAccessGrant (ToStorjKey key) oneNonce = some g ∧
      p = rec.public ∧ s1 = goCopy (List.replicate 32 0) sk := by
  simp only [Database.Get] at h
  split at h
  next => simp at h
  next rec hrec =>
    split at h
    next => simp at h
    next sk hsk =>
      split at h
      next => simp at h
      next ag hag =>
        simp only [Except.ok.injEq, Prod.mk.injEq] at h
        exact ⟨rec, sk, hrec, hsk, h.1 ▸ hag, h.2.1.symm, h.2.2.symm⟩

/-- The derived cipher key is the 16 key bytes left-aligned in a 32-byte
zero buffer. -/
theorem ToStorjKey_pad (key : List Nat) (hk : key.length = 16) :
    ToStorjKey key = key ++ List.replicate 16 0 := by
  unfold ToStorjKey goCopy
  rw [List.length_replicate, hk]
  have hmin : min 32 16 = 16 := by decide
  rw [hmin]
  have h1 : key.take 16 = key := List.take_of_length_le (by omega)
  have h2 : (List.replicate 32 (0 : Nat)).drop 16 = List.replicate 16 0 := by decide
  rw [h1, h2]

/-! ## Claim theorems -/

/-- C1: for every encryption key `key`, grant `accessGrant` and flag
`public`, if `Put` succeeds and returns secret `s1`, then a subsequent
`Get` of the same key on the resulting store state (no intervening
`Delete` or `Invalidate`; the store model honours the §4.5 contract)
succeeds and returns exactly `(accessGrant, public, s1)`. -/
theorem C1_put_then_get (db : Database) (parseAccess : List Nat → Option Access)
    (st : KVState) (key accessGrant : List Nat) (public : Bool)
    (freshSecret s1 : List Nat) (st1 : KVState)
    (hput : db.Put parseAccess st key accessGrant public freshSecret = (.ok s1, st1))
    (hs : freshSecret.length = 32) :
    db.Get st1 key = .ok (accessGrant, public, s1) :=
  put_get db parseAccess st key accessGrant public freshSecret s1 st1 hput hs

theorem C1_witness :
    Database.Get testDB
      (Database.Put testDB testParse [] testKey testGrant true testSecret).2 testKey =
      .ok (testGrant, true, testSecret) :=
  C1_put_then_get testDB testParse [] testKey testGrant true testSecret testSecret
    (Database.Put testDB testParse [] testKey testGrant true testSecret).2
    (by decide) (by decide)

/-- C2: for every encryption key, the AES-GCM cipher key used for both
ciphertexts is the 16 key bytes copied left-aligned into a zero 32-byte
buffer, the secret-key ciphertext always carries the all-zero 12-byte
nonce and the access-grant ciphertext the nonce with byte 0 = 1 and the
rest zero — in the record written by every successful `Put`, and (since
decryption succeeds only under matching key and nonce) in the record read
by every successful `Get`. -/
theorem C2_derived_key_and_fixed_nonces (key : List Nat) (hk : key.length = 16) :
    ToStorjKey key = key ++ List.replicate 16 0 ∧
    zeroNonce = List.replicate 12 0 ∧
    oneNonce = 1 :: List.replicate 11 0 ∧
    (∀ db parseAccess st accessGrant public freshSecret s1 st1,
      Database.Put db parseAccess st key accessGrant public freshSecret = (.ok s1, st1) →
      ∃ rec, kvGet st1 (keyHash key) = some rec ∧
        rec.encryptedSecretKey = encrypt (ToStorjKey key) zeroNonce freshSecret ∧
        rec.encryptedAccessGrant = encrypt (ToStorjKey key) oneNonce accessGrant) ∧
    (∀ db st rec g p s1, kvGet st (keyHash key) = some rec →
      Database.Get db st key = .ok (g, p, s1) →
      rec.encryptedSecretKey.key = ToStorjKey key ∧
      rec.encryptedSecretKey.nonce = zeroNonce ∧
      rec.encryptedAccessGrant.key = ToStorjKey key ∧
      rec.encryptedAccessGrant.nonce = oneNonce) := by
  refine ⟨ToStorjKey_pad key hk, rfl, rfl, ?_, ?_⟩
  · intro db parseAccess st accessGrant public freshSecret s1 st1 hput
    obtain ⟨access, url, hpa, hpu, hmem, hlk, hs1, hst1⟩ :=
      put_ok_dest db parseAccess st key accessGrant public freshSecret s1 st1 hput
    subst hst1
    refine ⟨putRecord key accessGrant public freshSecret access, ?_, rfl, rfl⟩
    simp [kvGet, kvLookup]
  · intro db st rec g p s1 hrec hget
    obtain ⟨rec2, sk, hrec2, hsk, hag, hp, hs1⟩ := get_ok_dest db st key g p s1 hget
    rw [hrec] at hrec2
    injection hrec2 with hrec2
    subst hrec2
    obtain ⟨hk1, hn1, -⟩ := decrypt_some_dest _ _ _ _ hsk
    obtain ⟨hk2, hn2, -⟩ := decrypt_some_dest _ _ _ _ hag
    exact ⟨hk1, hn1, hk2, hn2⟩

theorem C2_witness :
    ToStorjKey testKey = testKey ++ List.replicate 16 0 ∧
    zeroNonce = List.replicate 12 0 ∧
    oneNonce = 1 :: List.replicate 11 0 ∧
    (∀ db parseAccess st accessGrant public freshSecret s1 st1,
      Database.Put db parseAccess st testKey accessGrant public freshSecret = (.ok s1, st1) →
      ∃ rec, kvGet st1 (keyHash testKey) = some rec ∧
        rec.encryptedSecretKey = encrypt (ToStorjKey testKey) zeroNonce freshSecret ∧
        rec.encryptedAccessGrant = encrypt (ToStorjKey testKey) oneNonce accessGrant) ∧
    (∀ db st rec g p s1, kvGet st (keyHash testKey) = some rec →
      Database.Get db st testKey = .ok (g, p, s1) →
      rec.encryptedSecretKey.key = ToStorjKey testKey ∧
      rec.encryptedSecretKey.nonce = zeroNonce ∧
      rec.encryptedAccessGrant.key = ToStorjKey testKey ∧
      rec.encryptedAccessGrant.nonce = oneNonce) :=
  C2_derived_key_and_fixed_nonces testKey (by decide)

/-- C3: when a live record exists under the key hash but AEAD decryption
of the encrypted secret key or of the encrypted access grant fails, `Get`
returns the `corrupt` error, an error kind distinct from `notFound`. -/
theorem C3_decrypt_failure_corrupt (db : Database) (st : KVState) (key : List Nat)
    (rec : Record) (hrec : kvGet st (keyHash key) = some rec)
    (hfail : decrypt rec.encryptedSecretKey (ToStorjKey key) zeroNonce = none ∨
      decrypt rec.encryptedAccessGrant (ToStorjKey key) oneNonce = none) :
    db.Get st key = .error .corrupt ∧ GetErr.corrupt ≠ GetErr.notFound := by
  refine ⟨?_, by decide⟩
  simp only [Database.Get, hrec]
  cases h1 : decrypt rec.encryptedSecretKey (ToStorjKey key) zeroNonce with
  | none => rfl
  | some sk =>
    rcases hfail with hf | hf
    · rw [hf] at h1
      simp at h1
    · rw [hf]

theorem C3_witness :
    Database.Get testDB testBadState testKey = .error .corrupt ∧
      GetErr.corrupt ≠ GetErr.notFound :=
  C3_decrypt_failure_corrupt testDB testBadState testKey testBadRecord (by decide)
    (Or.inl (by decide))

/-- C4: after invalidation of an existing record, `Get` returns the
`notFound` error — the very same result as for a key with no record at
all — and returns no credential material; the two cases are
indistinguishable to the caller. -/
theorem C4_invalidated_indistinguishable (db : Database) (st : KVState)
    (key : List Nat) (reason : String) (e : KVEntry)
    (hexists : kvLookup st (keyHash key) = some e) :
    db.Get (db.Invalidate st key reason) key = .error .notFound ∧
    (∀ db2 st2, kvLookup st2 (keyHash key) = none →
      Database.Get db2 st2 key = .error .notFound) := by
  constructor
  · simp [Database.Get, Database.Invalidate, kvGet, kvLookup_invalidate, hexists]
  · intro db2 st2 habs
    simp [Database.Get, kvGet, habs]

theorem C4_witness :
    Database.Get testDB (Database.Invalidate testDB testBadState testKey "abuse") testKey =
        .error .notFound ∧
      (∀ db2 st2, kvLookup st2 (keyHash testKey) = none →
        Database.Get db2 st2 testKey = .error .notFound) :=
  C4_invalidated_indistinguishable testDB testBadState testKey "abuse" ⟨testBadRecord, none⟩
    (by decide)

/-- C5: the allow-list built by `RemoveNodeIDs` keeps each configured
entry's address component; `Put` fails with `disallowedSatellite` exactly
when the address component of the grant's satellite address is not in the
set, so a grant whose address component matches a configured entry's
address component passes the check regardless of node-ID prefixes on
either side. -/
theorem C5_allowlist_by_address (urls addrs : List (List Nat))
    (hrm : RemoveNodeIDs urls = some addrs)
    (parseAccess : List Nat → Option Access) (st : KVState)
    (key g s : List Nat) (p : Bool) (a : Access) (u : NodeURL)
    (hg : parseAccess g = some a)
    (hu : parseNodeURL a.satelliteAddress = some u) :
    (((NewDatabase addrs).Put parseAccess st key g p s).1 =
        .error .disallowedSatellite ↔ u.address ∉ addrs) ∧
    (∀ cfg ∈ urls, ∀ cu, parseNodeURL cfg = some cu → cu.address = u.address →
      ((NewDatabase addrs).Put parseAccess st key g p s).1 ≠
        .error .disallowedSatellite) := by
  have hmain : (((NewDatabase addrs).Put parseAccess st key g p s).1 =
      .error .disallowedSatellite ↔ u.address ∉ addrs) := by
    simp only [Database.Put, hg, hu, NewDatabase]
    by_cases hmem : u.address ∈ addrs
    · rw [if_pos hmem]
      constructor
      · intro hcontra
        split at hcontra
        next => simp at hcontra
        next => simp at hcontra
      · intro hcontra
        exact absurd hmem hcontra
    · rw [if_neg hmem]
      simp [hmem]
  refine ⟨hmain, ?_⟩
  intro cfg hcfg cu hcu haddr hcontra
  have hin : cu.address ∈ addrs := removeNodeIDs_mem urls addrs hrm cfg hcfg cu hcu
  rw [haddr] at hin
  exact (hmain.mp hcontra) hin

theorem C5_witness :
    (((NewDatabase [[5]]).Put testParse [] testKey testGrant true testSecret).1 =
        .error .disallowedSatellite ↔ (NodeURL.mk [7] [5]).address ∉ [[5]]) ∧
    (∀ cfg ∈ [[7, 64, 5]], ∀ cu, parseNodeURL cfg = some cu →
      cu.address = (NodeURL.mk [7] [5]).address →
      ((NewDatabase [[5]]).Put testParse [] testKey testGrant true testSecret).1 ≠
        .error .disallowedSatellite) :=
  C5_allowlist_by_address [[7, 64, 5]] [[5]] (by decide) testParse [] testKey testGrant
    testSecret true testAccess ⟨[7], [5]⟩ (by decide) (by decide)

/-- C6: `Put` is never accepted twice for the same key: with the record of
a first successful `Put` stored under the key hash, a second `Put` of the
same key with a parsable, allowed grant returns `alreadyExists` and the
store state is unchanged; `Get` still returns the first put's grant, flag
and secret; and no second `Put` of the same key — whatever its grant —
ever succeeds. -/
theorem C6_no_second_put (db : Database) (parseAccess : List Nat → Option Access)
    (st : KVState) (key g1 : List Nat) (p1 : Bool) (s1 r1 : List Nat) (st1 : KVState)
    (g2 : List Nat) (p2 : Bool) (s2 : List Nat) (a2 : Access) (u2 : NodeURL)
    (hput1 : db.Put parseAccess st key g1 p1 s1 = (.ok r1, st1))
    (hs : s1.length = 32)
    (hg2 : parseAccess g2 = some a2)
    (hu2 : parseNodeURL a2.satelliteAddress = some u2)
    (hmem2 : u2.address ∈ db.allowedSatelliteAddresses) :
    db.Put parseAccess st1 key g2 p2 s2 = (.error .alreadyExists, st1) ∧
    db.Get st1 key = .ok (g1, p1, r1) ∧
    (∀ parse3 g3 p3 s3 r3 st3, Database.Put db parse3 st1 key g3 p3 s3 ≠ (.ok r3, st3)) := by
  obtain ⟨access, url, hpa, hpu, hmem, hlk, hr1, hst1⟩ :=
    put_ok_dest db parseAccess st key g1 p1 s1 r1 st1 hput1
  refine ⟨?_, put_get db parseAccess st key g1 p1 s1 r1 st1 hput1 hs, ?_⟩
  · subst hst1
    simp only [Database.Put, hg2, hu2]
    rw [if_pos hmem2]
    simp [kvPut, kvLookup]
  · intro parse3 g3 p3 s3 r3 st3 hput3
    obtain ⟨a3, u3, -, -, -, hlk3, -, -⟩ :=
      put_ok_dest db parse3 st1 key g3 p3 s3 r3 st3 hput3
    rw [hst1] at hlk3
    simp [kvLookup] at hlk3

theorem C6_witness :
    Database.Put testDB testParse
        (Database.Put testDB testParse [] testKey testGrant true testSecret).2 testKey
        testGrant2 false (List.replicate 32 7) =
      (.error .alreadyExists,
        (Database.Put testDB testParse [] testKey testGrant true testSecret).2) ∧
    Database.Get testDB
        (Database.Put testDB testParse [] testKey testGrant true testSecret).2 testKey =
      .ok (testGrant, true, testSecret) ∧
    (∀ parse3 g3 p3 s3 r3 st3,
      Database.Put testDB parse3
          (Database.Put testDB testParse [] testKey testGrant true testSecret).2 testKey
          g3 p3 s3 ≠ (.ok r3, st3)) :=
  C6_no_second_put testDB testParse [] testKey testGrant true testSecret testSecret
    (Database.Put testDB testParse [] testKey testGrant true testSecret).2
    testGrant2 false (List.replicate 32 7) testAccess ⟨[7], [5]⟩
    (by decide) (by decide) (by decide) (by decide) (by decide)

/-- C7 (amended): `FromBase32(ToBase32(b))` succeeds and yields `b` for
every 16-byte key `b`; and for every accepted 28-character input `x` that
is a canonical encoding (an output of `ToBase32`), `ToBase32` of the
decoded key reproduces `x` exactly. (As stated over all accepted inputs
the second direction is false: `FromBase32` uppercases before decoding,
so it also accepts non-canonical spellings that do not re-encode to
themselves; see the counterexample.) -/
theorem C7_roundtrip_amended :
    (∀ k recv, k.length = 16 → (∀ b ∈ k, b < 256) → recv.length = 16 →
      FromBase32 recv (ToBase32 encKeyVersionByte k) = (k, GoOutcome.ok)) ∧
    (∀ x k0 recv, recv.length = 16 →
      (∃ b, b.length = 16 ∧ (∀ c ∈ b, c < 256) ∧ x = ToBase32 encKeyVersionByte b) →
      FromBase32 recv x = (k0, GoOutcome.ok) →
      ToBase32 encKeyVersionByte k0 = x) := by
  constructor
  · exact fun k recv hk hb hr => FromBase32_ToBase32 k recv hk hb hr
  · rintro x k0 recv hr ⟨b, hb1, hb2, rfl⟩ hfb
    rw [FromBase32_ToBase32 b recv hb1 hb2 hr] at hfb
    have hb0 : b = k0 := congrArg Prod.fst hfb
    rw [← hb0]

theorem C7_witness :
    FromBase32 (List.replicate 16 0) (ToBase32 encKeyVersionByte (List.replicate 16 5)) =
      (List.replicate 16 5, GoOutcome.ok) :=
  C7_roundtrip_amended.1 (List.replicate 16 5) (List.replicate 16 0)
    (by decide) (by decide) (by decide)

/-- C7 counterexample: the uppercase spelling of a canonical encoding is a
28-character string that `FromBase32` accepts (decoding to the original
key), yet `ToBase32` of the decoded key is the lowercase spelling, not the
input — so the claimed second direction fails as stated. -/
theorem C7_counterexample :
    FromBase32 (List.replicate 16 0)
        ((ToBase32 encKeyVersionByte (List.replicate 16 1)).map toUpperByte) =
      (List.replicate 16 1, GoOutcome.ok) ∧
    ((ToBase32 encKeyVersionByte (List.replicate 16 1)).map toUpperByte).length = 28 ∧
    ToBase32 encKeyVersionByte (List.replicate 16 1) ≠
      (ToBase32 encKeyVersionByte (List.replicate 16 1)).map toUpperByte := by
  decide

/-- C8: a parsable grant whose satellite address is not on the allow-list
makes `Put` fail with `disallowedSatellite` and the returned store state
is exactly the incoming one: no record is persisted (the store's put is
never reached on this path). -/
theorem C8_disallowed_not_persisted (db : Database) (parseAccess : List Nat → Option Access)
    (st : KVState) (key g s : List Nat) (p : Bool) (a : Access) (u : NodeURL)
    (hg : parseAccess g = some a)
    (hu : parseNodeURL a.satelliteAddress = some u)
    (hmem : u.address ∉ db.allowedSatelliteAddresses) :
    db.Put parseAccess st key g p s = (.error .disallowedSatellite, st) := by
  simp only [Database.Put, hg, hu]
  rw [if_neg hmem]

theorem C8_witness :
    Database.Put (NewDatabase [[6]]) testParse [] testKey testGrant false testSecret =
      (.error .disallowedSatellite, []) :=
  C8_disallowed_not_persisted (NewDatabase [[6]]) testParse [] testKey testGrant testSecret
    false testAccess ⟨[7], [5]⟩ (by decide) (by decide) (by decide)

/-- C9: `FromBase32` is atomic on failure: whenever it does not succeed
(wrong length, base32 decode failure, wrong version byte — and likewise on
the panic path), the receiver is returned exactly as it was; it is
overwritten only on success. -/
theorem C9_receiver_unchanged_on_error (k encoded : List Nat)
    (h : (FromBase32 k encoded).2 ≠ GoOutcome.ok) :
    (FromBase32 k encoded).1 = k := by
  unfold FromBase32 at h ⊢
  split at h
  next hc => rw [if_pos hc]
  next hlen =>
    rw [if_neg hlen]
    split at h
    next => rfl
    next => rfl
    next d0 rest heq =>
      split at h
      next hd => rw [if_pos hd]
      next => exact absurd rfl h

theorem C9_witness :
    (FromBase32 (List.replicate 16 3) []).2 ≠ GoOutcome.ok ∧
      (FromBase32 (List.replicate 16 3) []).1 = List.replicate 16 3 :=
  ⟨by decide, C9_receiver_unchanged_on_error (List.replicate 16 3) [] (by decide)⟩

/-- C10 (code behaviour at the failing inputs): Go's base32 decoder strips
carriage returns and newlines before decoding, so a 28-character input of
newlines passes the length check, decodes successfully to an empty buffer,
and the version-byte read `data[0]` panics; and a 28-character input with
26 base32 characters and two newlines decodes successfully to 16 bytes —
not 17 — after which the copy fills only 15 of the 16 key bytes, leaving
the last receiver byte stale on a successful return. -/
theorem C10_code_eval :
    FromBase32 (List.replicate 16 0) (List.replicate 28 10) =
      (List.replicate 16 0, GoOutcome.panicked) ∧
    FromBase32 (List.replicate 16 9)
        (ToBase32 encKeyVersionByte (List.replicate 15 0) ++ [10, 10]) =
      (List.replicate 15 0 ++ [9], GoOutcome.ok) := by
  decide

end GatewayMT
